import Mathlib

/-!
Shallow embedding of the core of the `cpsat-autotune` repository.

Overview of the correspondence with the Python sources:

* `caching_solver.py` : `MultiResult`, `CachingScorer` (cache keyed by the
  normalized parameter assignment, repeated sampling with knockout early
  abort).  The external solver is modelled by an oracle `ℕ → ℚ` giving the
  metric score of the i-th solver invocation of the session; the scorer
  state carries the invocation counter, so the number of solver calls made
  by an `evaluate` call is observable as the difference of the counters.
* `metrics.py` : `Direction`, `Comparison`, `Metric.comp`, `Metric.worst`
  (over a list of scores), and the `MinGapWithinTimelimit` score function.
* `objective.py` : the `Objective` per-trial strategy with its
  `prune_if_below` knockout threshold, and the internal metric convention
  of that file (higher is better; `MinObjective` negates).
* `parameter_evaluator.py` : `ParameterEvaluator.evaluate`, the
  leave-one-out sweep with its drop criterion and contribution
  normalization.

Machine floats are modelled by `ℚ`; Python's `float("inf")` in the gap
metric is modelled by `⊤ : WithTop ℚ`.
-/

namespace CpsatAutotune

/-- A native CP-SAT parameter value: `float | int | bool | list | tuple`.
List and tuple elements are numeric in every use in the repository. -/
inductive PyVal where
  | num : ℚ → PyVal
  | boolean : Bool → PyVal
  | list : List ℚ → PyVal
  | tuple : List ℚ → PyVal
deriving DecidableEq, Repr

/-- Python `sorted` on a list of numbers. -/
def pySorted (l : List ℚ) : List ℚ := l.insertionSort (· ≤ ·)

/-- `_replace_lists` in `CachingScorer._create_key_from_params`:
lists and tuples become sorted tuples, scalars are unchanged. -/
def replaceLists : PyVal → PyVal
  | .list xs => .tuple (pySorted xs)
  | .tuple xs => .tuple (pySorted xs)
  | v => v

/-- The hashable cache key: a frozenset of (name, normalized value) pairs. -/
def createKeyFromParams (params : List (String × PyVal)) : Finset (String × PyVal) :=
  (params.map fun kv => (kv.1, replaceLists kv.2)).toFinset

/-- `CachingScorer._remove_fixed_params`: drop every parameter whose name is
a key of the fixed-params dict. -/
def removeFixedParams (fixed : List (String × PyVal)) (params : List (String × PyVal)) :
    List (String × PyVal) :=
  params.filter fun kv => !((fixed.map Prod.fst).contains kv.1)

/-- The normalized cache key `evaluate` uses for an assignment. -/
def keyOf (fixed : List (String × PyVal)) (params : List (String × PyVal)) :
    Finset (String × PyVal) :=
  createKeyFromParams (removeFixedParams fixed params)

/-- Metric direction (`metrics.Metric.direction`). -/
inductive Direction where
  | minimize
  | maximize
deriving DecidableEq, Repr

/-- `metrics.Comparison`. -/
inductive Comparison where
  | WORSE
  | EQUAL
  | BETTER
deriving DecidableEq, Repr

namespace Metric

/-- `metrics.Metric.comp`: compare two scores according to the direction. -/
def comp (d : Direction) (a b : ℚ) : Comparison :=
  if a = b then .EQUAL
  else match d with
    | .maximize => if a > b then .BETTER else .WORSE
    | .minimize => if a < b then .BETTER else .WORSE

end Metric

/-- Python `min` on a nonempty list of numbers (`0` is junk for `[]`,
where CPython would raise; no theorem below reaches that case). -/
def pyMin : List ℚ → ℚ
  | [] => 0
  | x :: xs => xs.foldl min x

/-- Python `max` on a nonempty list of numbers (junk `0` for `[]`). -/
def pyMax : List ℚ → ℚ
  | [] => 0
  | x :: xs => xs.foldl max x

/-- `np.mean` over a list of scores. -/
def pyMean (l : List ℚ) : ℚ := l.sum / l.length

namespace Metric

/-- `metrics.Metric.worst` on a collection of scores: `min` of the values
under the direction-adjusted key, i.e. the plain minimum for maximize and
the maximum for minimize. -/
def worst (d : Direction) (l : List ℚ) : ℚ :=
  match d with
  | .minimize => pyMax l
  | .maximize => pyMin l

end Metric

/-- The knockout test of `CachingScorer.evaluate`:
`metric.comp(score, knockout_score) in (Comparison.WORSE, Comparison.EQUAL)`. -/
def isKnockout (d : Direction) (score ko : ℚ) : Bool :=
  match Metric.comp d score ko with
  | .WORSE => true
  | .EQUAL => true
  | .BETTER => false

/-- `caching_solver.MultiResult`: all samples for one normalized assignment. -/
structure MultiResult where
  scores : List ℚ
  params : List (String × PyVal)
deriving DecidableEq, Repr

namespace MultiResult

/-- `MultiResult.as_knockout_result`: a fresh result whose score list is
`len(self.scores)` copies of the worst observed value. -/
def asKnockoutResult (d : Direction) (r : MultiResult) : MultiResult :=
  { params := r.params, scores := List.replicate r.scores.length (Metric.worst d r.scores) }

end MultiResult

/-- State of a `CachingScorer`: the cache plus the number of solver
invocations performed so far (the latter instruments the external solve
routine so call counts are observable). -/
structure ScorerState where
  cache : Finset (String × PyVal) → Option MultiResult
  nSolves : ℕ

/-- The score list held in the cache for a key (`[]` when absent). -/
def scoresAt (st : ScorerState) (k : Finset (String × PyVal)) : List ℚ :=
  match st.cache k with
  | none => []
  | some r => r.scores

/-- The guard of the cached-knockout short-circuit in `evaluate`:
`knockout_score is not None and len(result) > 0` and the worst stored
value is no better than the knockout score. -/
def knockoutCached (d : Direction) (knockout : Option ℚ) (r : MultiResult) : Bool :=
  match knockout with
  | none => false
  | some ko => decide (0 < r.scores.length) && isKnockout d (Metric.worst d r.scores) ko

/-- The `for _ in range(n_missing)` loop of `CachingScorer.evaluate`:
each iteration draws the next solver score from the oracle, appends it,
and—when a knockout score is set—stops as soon as the new score is no
better than it.  Returns the accumulated score list, the new invocation
counter, and whether the loop stopped with a knockout. -/
def evalLoop (d : Direction) (oracle : ℕ → ℚ) (knockout : Option ℚ) :
    List ℚ → ℕ → ℕ → List ℚ × ℕ × Bool
  | scores, n, 0 => (scores, n, false)
  | scores, n, fuel + 1 =>
      let score := oracle n
      let scores' := scores ++ [score]
      match knockout with
      | some ko =>
          if isKnockout d score ko then (scores', n + 1, true)
          else evalLoop d oracle knockout scores' (n + 1) fuel
      | none => evalLoop d oracle knockout scores' (n + 1) fuel

namespace CachingScorer

/-- `CachingScorer.evaluate`.  Returns the `MultiResult` the Python method
returns, the new scorer state, and a flag that is `true` exactly when the
call returned through one of the two knockout short-circuits. -/
def evaluate (d : Direction) (fixed : List (String × PyVal)) (oracle : ℕ → ℚ)
    (st : ScorerState) (params : List (String × PyVal)) (numRuns : ℕ)
    (knockout : Option ℚ) : MultiResult × ScorerState × Bool :=
  let cleaned := removeFixedParams fixed params
  let paramKey := createKeyFromParams cleaned
  let result := (st.cache paramKey).getD { scores := [], params := cleaned }
  if numRuns ≤ result.scores.length then
    (result, st, false)
  else if knockoutCached d knockout result then
    (result.asKnockoutResult d, st, true)
  else
    let out := evalLoop d oracle knockout result.scores st.nSolves (numRuns - result.scores.length)
    let result' : MultiResult := { result with scores := out.1 }
    let st' : ScorerState :=
      { cache := fun k => if k = paramKey then some result' else st.cache k,
        nSolves := out.2.1 }
    if out.2.2 then (result'.asKnockoutResult d, st', true) else (result', st', false)

end CachingScorer

/-! ### `metrics.py`: solver outcomes and the gap metric -/

/-- Solver status values relevant to the metrics (`cp_model` statuses). -/
inductive CpStatus where
  | OPTIMAL
  | FEASIBLE
  | INFEASIBLE
  | UNKNOWN
deriving DecidableEq, Repr

/-- The test `status in (cp_model.OPTIMAL, cp_model.FEASIBLE)`. -/
def CpStatus.isFeasible (s : CpStatus) : Bool :=
  decide (s = .OPTIMAL) || decide (s = .FEASIBLE)

/-- The observable outcome of one call to `solver.solve(model)`:
status, `solver.objective_value`, `solver.best_objective_bound`, and the
wall-clock time of the call.  The numeric fields carry meaning only when
the status makes them meaningful, matching the Python attributes. -/
structure SolveOutcome where
  status : CpStatus
  objectiveValue : ℚ
  bestObjectiveBound : ℚ
  timeInS : ℚ
deriving DecidableEq, Repr

/-- `metrics.MinGapWithinTimelimit` configuration. -/
structure MinGapWithinTimelimit where
  maxTimeInSeconds : ℚ
  limit : ℚ
deriving DecidableEq, Repr

namespace MinGapWithinTimelimit

/-- `MinGapWithinTimelimit.__call__`: when a feasible solution exists the
gap is `abs(obj_val - best_bound) / max(1, abs(obj_val))`, otherwise
`float("inf")` (modelled as `⊤`); the returned score is
`min(gap, self.limit)`. -/
def call (m : MinGapWithinTimelimit) (o : SolveOutcome) : WithTop ℚ :=
  let gap : WithTop ℚ :=
    if o.status.isFeasible then
      ((|o.objectiveValue - o.bestObjectiveBound| / max 1 |o.objectiveValue| : ℚ) : WithTop ℚ)
    else ⊤
  min gap (m.limit : WithTop ℚ)

/-- `MinGapWithinTimelimit.knockout_score`. -/
def knockoutScore (m : MinGapWithinTimelimit) : ℚ := m.limit

end MinGapWithinTimelimit

/-! ### `objective.py`: the per-trial tuning strategy

The metrics of this file follow a single internal convention: higher is
better, and `MinObjective` negates the raw objective value to fit it. -/

namespace MinObjective

/-- `objective.MinObjective.__call__`. -/
def call (objForTimeout : ℚ) (_status : CpStatus) (objValue : Option ℚ) (_timeInS : ℚ) : ℚ :=
  match objValue with
  | some v => -v
  | none => -objForTimeout

end MinObjective

namespace MaxObjective

/-- `objective.MaxObjective.__call__`. -/
def call (objForTimeout : ℚ) (_status : CpStatus) (objValue : Option ℚ) (_timeInS : ℚ) : ℚ :=
  match objValue with
  | some v => v
  | none => objForTimeout

end MaxObjective

/-- `objective.Objective` configuration.  The CP-SAT model and the
`CpSatParameterSpace` are external collaborators: the solver outcome of the
i-th invocation comes from an oracle, and the trial's normalized parameter
key (`_get_key_from_trial`) is passed in directly. -/
structure Objective where
  nSamplesPerParam : ℕ
  maxSamplesPerParam : ℕ
  metric : CpStatus → Option ℚ → ℚ → ℚ

/-- Mutable state of an `Objective`: `_baseline`, `_samples` (a defaultdict
from frozenset keys to score lists) and the solver-invocation counter. -/
structure ObjectiveState where
  baseline : List ℚ
  samples : Finset (String × PyVal) → Option (List ℚ)
  nSolves : ℕ

namespace Objective

/-- `Objective._solve`: run the solver, read the objective value when the
status is optimal or feasible, and score the outcome with the metric. -/
def solveScore (metric : CpStatus → Option ℚ → ℚ → ℚ) (o : SolveOutcome) : ℚ :=
  let obj : Option ℚ := if o.status.isFeasible then some o.objectiveValue else none
  metric o.status obj o.timeInS

/-- `Objective.compute_baseline`: on first use, run the solver
`max_samples_per_param` times, record the scores under the empty key and
as the baseline. -/
def computeBaseline (cfg : Objective) (oracle : ℕ → SolveOutcome) (st : ObjectiveState) :
    List ℚ × ObjectiveState :=
  if st.baseline = [] then
    let values := (List.range cfg.maxSamplesPerParam).map
      fun i => solveScore cfg.metric (oracle (st.nSolves + i))
    (values,
      { baseline := values,
        samples := fun k =>
          if k = (∅ : Finset (String × PyVal)) then some ((st.samples ∅).getD [] ++ values)
          else st.samples k,
        nSolves := st.nSolves + cfg.maxSamplesPerParam })
  else (st.baseline, st)

/-- The knockout threshold of `Objective.__call__`:
`min(baseline) - 0.1 * (max(baseline) - min(baseline))` (stated over the
internal higher-is-better scores). -/
def pruneIfBelow (baseline : List ℚ) : ℚ :=
  pyMin baseline - (1 / 10) * (pyMax baseline - pyMin baseline)

/-- The `for _ in range(n_trials)` loop of `Objective.__call__`: draw a
solver outcome, append its score to the trial key's samples, and return it
immediately when it falls below the knockout threshold.  The first
component is `some value` when the loop pruned, `none` when it ran out. -/
def trialLoop (cfg : Objective) (oracle : ℕ → SolveOutcome) (prune : ℚ)
    (key : Finset (String × PyVal)) : ℕ → ObjectiveState → Option ℚ × ObjectiveState
  | 0, st => (none, st)
  | fuel + 1, st =>
      let value := solveScore cfg.metric (oracle st.nSolves)
      let st' : ObjectiveState :=
        { st with
          samples := fun k =>
            if k = key then some ((st.samples key).getD [] ++ [value]) else st.samples k,
          nSolves := st.nSolves + 1 }
      if value < prune then (some value, st')
      else trialLoop cfg oracle prune key fuel st'

/-- `Objective.__call__` for the trial with normalized key `trialKey`. -/
def call (cfg : Objective) (oracle : ℕ → SolveOutcome) (st : ObjectiveState)
    (trialKey : Finset (String × PyVal)) : ℚ × ObjectiveState :=
  let bl := computeBaseline cfg oracle st
  let prune := pruneIfBelow bl.1
  let nTrials : ℕ :=
    match bl.2.samples trialKey with
    | some l => max (min (cfg.maxSamplesPerParam - l.length) cfg.nSamplesPerParam) 0
    | none => cfg.nSamplesPerParam
  match trialLoop cfg oracle prune trialKey nTrials bl.2 with
  | (some value, st2) => (value, st2)
  | (none, st2) => (pyMean ((st2.samples trialKey).getD []), st2)

end Objective

/-! ### `parameter_evaluator.py`: the leave-one-out significance sweep -/

/-- `parameter_evaluator.EvaluationResult`. -/
structure EvaluationResult where
  optimized_params : List (String × PyVal)
  contribution : List (String × ℚ)
  default_score : ℚ
  optimized_score : ℚ
deriving DecidableEq, Repr

/-- `parameter_evaluator.ParameterEvaluator` constructor data.  The CP-SAT
model, the fixed params and the metric's solver call live behind the score
oracle; the metric's `convert` (called on the two result scores, and
absent from the `metrics.Metric` base class) is passed as a function. -/
structure ParameterEvaluator where
  params : List (String × PyVal)
  baseline_values : List ℚ
  min_baseline_size : ℕ
  default_score : ℚ

/-- The `while len(self.baseline_scores) < self.min_baseline_size` loop:
append one oracle score per iteration, threading the invocation counter. -/
def fillBaselineScores (oracle : ℕ → ℚ) : List ℚ → ℕ → ℕ → List ℚ × ℕ
  | scores, n, 0 => (scores, n)
  | scores, n, missing + 1 => fillBaselineScores oracle (scores ++ [oracle n]) (n + 1) missing

/-- The `for key, solver in self._generate_variants(self.params)` loop:
score the assignment with one parameter reverted to default; drop it when
`score >= worst_baseline`, else keep it and record
`abs(baseline_avg - score)`.  Returns the kept parameters, their diffs,
and the next invocation index. -/
def sweepVariants (oracle : ℕ → ℚ) (worstBaseline baselineAvg : ℚ) :
    ℕ → List (String × PyVal) → List (String × PyVal) × List (String × ℚ) × ℕ
  | n, [] => ([], [], n)
  | n, (k, v) :: rest =>
      let score := oracle n
      let out := sweepVariants oracle worstBaseline baselineAvg (n + 1) rest
      if score ≥ worstBaseline then out
      else ((k, v) :: out.1, (k, |baselineAvg - score|) :: out.2.1, out.2.2)

namespace ParameterEvaluator

/-- `ParameterEvaluator.evaluate`.  Oracle call order follows the Python
control flow: baseline refills first, then one call per parameter variant,
then the final evaluation of the optimized parameter set. -/
def evaluate (convert : ℚ → ℚ) (oracle : ℕ → ℚ) (ev : ParameterEvaluator) : EvaluationResult :=
  let bl := fillBaselineScores oracle ev.baseline_values 0
    (ev.min_baseline_size - ev.baseline_values.length)
  let baseline_scores := bl.1
  let baseline_avg := pyMean baseline_scores
  let worst_baseline := pyMin baseline_scores
  let sw := sweepVariants oracle worst_baseline baseline_avg bl.2 ev.params
  let diffs := sw.2.1
  let total_diff := (diffs.map Prod.snd).sum
  let significance := diffs.map fun kd => (kd.1, kd.2 / total_diff)
  let optimized_score := oracle sw.2.2
  if optimized_score < worst_baseline then
    { optimized_params := ev.params, contribution := [],
      default_score := convert ev.default_score, optimized_score := convert baseline_avg }
  else
    { optimized_params := sw.1, contribution := significance,
      default_score := convert ev.default_score, optimized_score := convert optimized_score }

/-- CPython would raise `ZeroDivisionError` in the significance dict
comprehension exactly when the comprehension is nonempty and `total_diff`
is zero; over `ℚ` the division is total, so that crash condition is made
explicit here instead. -/
def normalizationDividesByZero (oracle : ℕ → ℚ) (ev : ParameterEvaluator) : Bool :=
  let bl := fillBaselineScores oracle ev.baseline_values 0
    (ev.min_baseline_size - ev.baseline_values.length)
  let sw := sweepVariants oracle (pyMin bl.1) (pyMean bl.1) bl.2 ev.params
  decide (sw.2.1 ≠ []) && decide ((sw.2.1.map Prod.snd).sum = 0)

end ParameterEvaluator

/-! ### Accessors naming the intermediate values of `CachingScorer.evaluate`
(used to state theorems about its branches; each is definitionally the
corresponding `let` of `evaluate`). -/

/-- The `result` variable of `evaluate` right after the cache lookup. -/
def cachedResult (st : ScorerState) (fixed params : List (String × PyVal)) : MultiResult :=
  (st.cache (keyOf fixed params)).getD
    { scores := [], params := removeFixedParams fixed params }

/-- The value of the sampling loop of `evaluate`. -/
def loopOut (d : Direction) (fixed : List (String × PyVal)) (oracle : ℕ → ℚ)
    (st : ScorerState) (params : List (String × PyVal)) (numRuns : ℕ)
    (knockout : Option ℚ) : List ℚ × ℕ × Bool :=
  evalLoop d oracle knockout (cachedResult st fixed params).scores st.nSolves
    (numRuns - (cachedResult st fixed params).scores.length)

/-- The `result` object as it stands when the loop of `evaluate` ends. -/
def loopResult (d : Direction) (fixed : List (String × PyVal)) (oracle : ℕ → ℚ)
    (st : ScorerState) (params : List (String × PyVal)) (numRuns : ℕ)
    (knockout : Option ℚ) : MultiResult :=
  { cachedResult st fixed params with
    scores := (loopOut d fixed oracle st params numRuns knockout).1 }

/-- The scorer state as it stands when the loop of `evaluate` ends. -/
def loopState (d : Direction) (fixed : List (String × PyVal)) (oracle : ℕ → ℚ)
    (st : ScorerState) (params : List (String × PyVal)) (numRuns : ℕ)
    (knockout : Option ℚ) : ScorerState :=
  { cache := fun k =>
      if k = keyOf fixed params then some (loopResult d fixed oracle st params numRuns knockout)
      else st.cache k,
    nSolves := (loopOut d fixed oracle st params numRuns knockout).2.1 }

/-- The scores the solver oracle yields for invocations `n, …, n+k-1`. -/
def oracleOutputs (oracle : ℕ → ℚ) (n k : ℕ) : List ℚ :=
  (List.range k).map fun i => oracle (n + i)

/-! ### Concrete inputs used by witnesses and counterexamples -/

/-- A fresh scorer state (empty cache, no solver calls yet). -/
def stEmpty : ScorerState := { cache := fun _ => none, nSolves := 0 }

/-- A one-parameter assignment used in the concrete scenarios. -/
def assignX : List (String × PyVal) := [("x", PyVal.num 1)]

/-- Score oracle: every solver run scores 15. -/
def oracC1 : ℕ → ℚ := fun _ => 15

/-- Score oracle: the first run scores 5, the second 12. -/
def oracC2 : ℕ → ℚ := fun n => [(5 : ℚ), 12].getD n 0

/-- Score oracle: run `i` scores `i`. -/
def oracC3 : ℕ → ℚ := fun n => (n : ℚ)

/-- A fixed-params dict with the single name `"f"`. -/
def fixedC4 : List (String × PyVal) := [("f", PyVal.num 0)]

/-- The assignment `{"a": [2, 1]}`. -/
def listParams : List (String × PyVal) := [("a", PyVal.list [2, 1])]

/-- The assignment `{"a": (1, 2)}`. -/
def tupleParams : List (String × PyVal) := [("a", PyVal.tuple [1, 2])]

/-- An `Objective` for the knockout-threshold scenario: 2 samples per
trial, a 5-sample baseline, and the `MinObjective` metric of
`objective.py` (which negates raw objective values). -/
def cfg7 : Objective :=
  { nSamplesPerParam := 2, maxSamplesPerParam := 5, metric := MinObjective.call 1000 }

/-- Solver outcomes: feasible runs with raw objective values
10, 12, 11, 13, 10 (the baseline) followed by 14 (the candidate). -/
def orac7 : ℕ → SolveOutcome := fun n =>
  { status := .FEASIBLE, objectiveValue := [(10 : ℚ), 12, 11, 13, 10, 14].getD n 0,
    bestObjectiveBound := 0, timeInS := 1 }

/-- A fresh `Objective` state. -/
def stO : ObjectiveState := { baseline := [], samples := fun _ => none, nSolves := 0 }

/-- The trial key of the candidate assignment in the scenario. -/
def key7 : Finset (String × PyVal) := {("x", PyVal.num 1)}

/-- Score oracle for the significance evaluator: candidate baseline runs
score 5 and 5, the variant without `p` scores 3, the final run scores 5. -/
def orac5 : ℕ → ℚ := fun n => [(5 : ℚ), 5, 3, 5].getD n 0

/-- An evaluator whose candidate `{p: 1}` scores far worse than the
default baseline score 100 (under a maximize reading). -/
def ev5 : ParameterEvaluator :=
  { params := [("p", .num 1)], baseline_values := [], min_baseline_size := 2,
    default_score := 100 }

/-- Score oracle: candidate baseline runs score 4 and 6 (worst 4, mean 5),
the variant without `p` scores 4.2, the final run scores 6. -/
def orac6 : ℕ → ℚ := fun n => [(4 : ℚ), 6, 21 / 5, 6].getD n 0

/-- The evaluator of the threshold counterexample scenario. -/
def ev6 : ParameterEvaluator :=
  { params := [("p", .num 1)], baseline_values := [], min_baseline_size := 2,
    default_score := 0 }

end CpsatAutotune

namespace CpsatAutotune

attribute [local semireducible] Rat.sub Rat.add Rat.mul Rat.inv

/-! ### Order helper lemmas for `pyMin`, `pyMax`, `pyMean` -/

theorem le_foldl_max (l : List ℚ) (x : ℚ) : x ≤ l.foldl max x := by
  induction l generalizing x with
  | nil => exact le_rfl
  | cons y t ih => exact le_trans (le_max_left x y) (ih (max x y))

theorem mem_le_foldl_max {y : ℚ} {l : List ℚ} (x : ℚ) (h : y ∈ l) : y ≤ l.foldl max x := by
  induction l generalizing x with
  | nil => cases h
  | cons z t ih =>
    rcases List.mem_cons.mp h with rfl | hy
    · exact le_trans (le_max_right x y) (le_foldl_max t (max x y))
    · exact ih (max x z) hy

theorem foldl_min_le (l : List ℚ) (x : ℚ) : l.foldl min x ≤ x := by
  induction l generalizing x with
  | nil => exact le_rfl
  | cons y t ih => exact le_trans (ih (min x y)) (min_le_left x y)

theorem foldl_min_le_mem {y : ℚ} {l : List ℚ} (x : ℚ) (h : y ∈ l) : l.foldl min x ≤ y := by
  induction l generalizing x with
  | nil => cases h
  | cons z t ih =>
    rcases List.mem_cons.mp h with rfl | hy
    · exact le_trans (foldl_min_le t (min x y)) (min_le_right x y)
    · exact ih (min x z) hy

theorem mem_le_pyMax {y : ℚ} {l : List ℚ} (h : y ∈ l) : y ≤ pyMax l := by
  match l with
  | [] => cases h
  | x :: xs =>
    rcases List.mem_cons.mp h with rfl | hy
    · exact le_foldl_max xs y
    · exact mem_le_foldl_max x hy

theorem pyMin_le_mem {y : ℚ} {l : List ℚ} (h : y ∈ l) : pyMin l ≤ y := by
  match l with
  | [] => cases h
  | x :: xs =>
    rcases List.mem_cons.mp h with rfl | hy
    · exact foldl_min_le xs y
    · exact foldl_min_le_mem x hy

theorem length_mul_le_sum {m : ℚ} {l : List ℚ} (h : ∀ y ∈ l, m ≤ y) :
    (l.length : ℚ) * m ≤ l.sum := by
  induction l with
  | nil => simp
  | cons x t ih =>
    have hx : m ≤ x := h x (List.mem_cons_self x t)
    have ht := ih fun y hy => h y (List.mem_cons_of_mem x hy)
    simp only [List.length_cons, List.sum_cons, Nat.cast_add, Nat.cast_one]
    nlinarith [ht, hx]

theorem pyMin_le_pyMean {l : List ℚ} (h : l ≠ []) : pyMin l ≤ pyMean l := by
  have hlen : 0 < (l.length : ℚ) := by
    exact_mod_cast List.length_pos.mpr h
  have hsum : (l.length : ℚ) * pyMin l ≤ l.sum :=
    length_mul_le_sum fun y hy => pyMin_le_mem hy
  rw [pyMean, le_div_iff₀ hlen]
  linarith [hsum]

theorem foldl_min_map_neg (l : List ℚ) (x : ℚ) :
    ((l.map fun y => -y).foldl min (-x)) = -(l.foldl max x) := by
  induction l generalizing x with
  | nil => rfl
  | cons z t ih =>
    simp only [List.map_cons, List.foldl_cons]
    rw [min_neg_neg, ih]

theorem foldl_max_map_neg (l : List ℚ) (x : ℚ) :
    ((l.map fun y => -y).foldl max (-x)) = -(l.foldl min x) := by
  induction l generalizing x with
  | nil => rfl
  | cons z t ih =>
    simp only [List.map_cons, List.foldl_cons]
    rw [max_neg_neg, ih]

theorem pyMin_map_neg {l : List ℚ} (h : l ≠ []) :
    pyMin (l.map fun y => -y) = -pyMax l := by
  match l with
  | [] => exact absurd rfl h
  | x :: xs =>
    simp only [List.map_cons, pyMin, pyMax]
    exact foldl_min_map_neg xs x

theorem pyMax_map_neg {l : List ℚ} (h : l ≠ []) :
    pyMax (l.map fun y => -y) = -pyMin l := by
  match l with
  | [] => exact absurd rfl h
  | x :: xs =>
    simp only [List.map_cons, pyMin, pyMax]
    exact foldl_max_map_neg xs x

/-! ### Characterizations of `Metric.comp` and `isKnockout` -/

theorem isKnockout_minimize (a c : ℚ) : isKnockout .minimize a c = true ↔ c ≤ a := by
  simp only [isKnockout, Metric.comp]
  split_ifs with h1 h2
  · subst h1; simp
  · simp only [Bool.false_eq_true, false_iff, not_le]; exact h2
  · simp only [true_iff]
    exact le_of_not_lt h2

theorem isKnockout_maximize (a c : ℚ) : isKnockout .maximize a c = true ↔ a ≤ c := by
  simp only [isKnockout, Metric.comp]
  split_ifs with h1 h2
  · subst h1; simp
  · simp only [Bool.false_eq_true, false_iff, not_le]; exact h2
  · simp only [true_iff]
    exact le_of_not_lt h2

theorem isKnockout_worst_of_mem {d : Direction} {s c : ℚ} {l : List ℚ} (hmem : s ∈ l)
    (h : isKnockout d s c = true) : isKnockout d (Metric.worst d l) c = true := by
  cases d with
  | minimize =>
    rw [isKnockout_minimize] at h ⊢
    exact le_trans h (mem_le_pyMax hmem)
  | maximize =>
    rw [isKnockout_maximize] at h ⊢
    exact le_trans (pyMin_le_mem hmem) h

/-! ### Behaviour of the sampling loop `evalLoop` -/

theorem oracleOutputs_zero (oracle : ℕ → ℚ) (n : ℕ) : oracleOutputs oracle n 0 = [] := rfl

theorem oracleOutputs_succ (oracle : ℕ → ℚ) (n k : ℕ) :
    oracleOutputs oracle n (k + 1) = oracle n :: oracleOutputs oracle (n + 1) k := by
  simp only [oracleOutputs, List.range_succ_eq_map, List.map_cons, List.map_map, Nat.add_zero]
  congr 1
  have hfun : ((fun i => oracle (n + i)) ∘ Nat.succ) = fun i => oracle (n + 1 + i) := by
    funext i
    simp only [Function.comp_apply]
    congr 1
    omega
  rw [hfun]

theorem length_oracleOutputs (oracle : ℕ → ℚ) (n k : ℕ) :
    (oracleOutputs oracle n k).length = k := by
  simp [oracleOutputs]

theorem evalLoop_spec (d : Direction) (oracle : ℕ → ℚ) (ko : Option ℚ) :
    ∀ (fuel : ℕ) (scores : List ℚ) (n : ℕ),
      (evalLoop d oracle ko scores n fuel).1
          = scores ++ oracleOutputs oracle n ((evalLoop d oracle ko scores n fuel).2.1 - n)
        ∧ n ≤ (evalLoop d oracle ko scores n fuel).2.1
        ∧ (evalLoop d oracle ko scores n fuel).2.1 - n ≤ fuel := by
  intro fuel
  induction fuel with
  | zero =>
    intro scores n
    simp [evalLoop, oracleOutputs]
  | succ fuel ih =>
    intro scores n
    cases ko with
    | none =>
      have h := ih (scores ++ [oracle n]) (n + 1)
      simp only [evalLoop]
      refine ⟨?_, by omega, by omega⟩
      rw [h.1]
      have hn : (evalLoop d oracle none (scores ++ [oracle n]) (n + 1) fuel).2.1 - n
          = ((evalLoop d oracle none (scores ++ [oracle n]) (n + 1) fuel).2.1 - (n + 1)) + 1 := by
        omega
      rw [hn, oracleOutputs_succ]
      simp
    | some c =>
      by_cases hk : isKnockout d (oracle n) c = true
      · simp only [evalLoop, hk, if_true]
        refine ⟨?_, by omega, by omega⟩
        have : n + 1 - n = 1 := by omega
        rw [this]
        simp [oracleOutputs_succ, oracleOutputs_zero]
      · have h := ih (scores ++ [oracle n]) (n + 1)
        simp only [evalLoop, hk, if_false, Bool.false_eq_true]
        refine ⟨?_, by omega, by omega⟩
        rw [h.1]
        have hn : (evalLoop d oracle (some c) (scores ++ [oracle n]) (n + 1) fuel).2.1 - n
            = ((evalLoop d oracle (some c) (scores ++ [oracle n]) (n + 1) fuel).2.1 - (n + 1)) + 1 := by
          omega
        rw [hn, oracleOutputs_succ]
        simp

theorem evalLoop_not_knocked (d : Direction) (oracle : ℕ → ℚ) (ko : Option ℚ) :
    ∀ (fuel : ℕ) (scores : List ℚ) (n : ℕ),
      (evalLoop d oracle ko scores n fuel).2.2 = false →
        (evalLoop d oracle ko scores n fuel).2.1 = n + fuel := by
  intro fuel
  induction fuel with
  | zero => intro scores n _; rfl
  | succ fuel ih =>
    intro scores n h
    cases ko with
    | none =>
      have := ih (scores ++ [oracle n]) (n + 1) (by simpa [evalLoop] using h)
      simp only [evalLoop]
      omega
    | some c =>
      by_cases hk : isKnockout d (oracle n) c = true
      · simp only [evalLoop, hk, if_true] at h
        exact Bool.noConfusion h
      · have := ih (scores ++ [oracle n]) (n + 1)
          (by simpa [evalLoop, hk] using h)
        simp only [evalLoop, hk, if_false, Bool.false_eq_true]
        omega

theorem evalLoop_none_not_knocked (d : Direction) (oracle : ℕ → ℚ) :
    ∀ (fuel : ℕ) (scores : List ℚ) (n : ℕ),
      (evalLoop d oracle none scores n fuel).2.2 = false := by
  intro fuel
  induction fuel with
  | zero => intro scores n; rfl
  | succ fuel ih => intro scores n; simpa [evalLoop] using ih (scores ++ [oracle n]) (n + 1)

theorem evalLoop_knocked (d : Direction) (oracle : ℕ → ℚ) (c : ℚ) :
    ∀ (fuel : ℕ) (scores : List ℚ) (n : ℕ),
      (evalLoop d oracle (some c) scores n fuel).2.2 = true →
        n < (evalLoop d oracle (some c) scores n fuel).2.1
        ∧ ∃ s ∈ (evalLoop d oracle (some c) scores n fuel).1, isKnockout d s c = true := by
  intro fuel
  induction fuel with
  | zero => intro scores n h; cases h
  | succ fuel ih =>
    intro scores n h
    by_cases hk : isKnockout d (oracle n) c = true
    · simp only [evalLoop, hk, if_true]
      refine ⟨by omega, oracle n, ?_, hk⟩
      simp
    · have h' : (evalLoop d oracle (some c) (scores ++ [oracle n]) (n + 1) fuel).2.2 = true := by
        simpa [evalLoop, hk] using h
      have := ih (scores ++ [oracle n]) (n + 1) h'
      simp only [evalLoop, hk, if_false, Bool.false_eq_true]
      exact ⟨by omega, this.2⟩

/-- `CachingScorer.evaluate` unfolded into its three branches. -/
theorem evaluate_eq (d : Direction) (fixed : List (String × PyVal)) (oracle : ℕ → ℚ)
    (st : ScorerState) (params : List (String × PyVal)) (numRuns : ℕ) (knockout : Option ℚ) :
    CachingScorer.evaluate d fixed oracle st params numRuns knockout
      = if numRuns ≤ (cachedResult st fixed params).scores.length then
          (cachedResult st fixed params, st, false)
        else if knockoutCached d knockout (cachedResult st fixed params) then
          ((cachedResult st fixed params).asKnockoutResult d, st, true)
        else if (loopOut d fixed oracle st params numRuns knockout).2.2 then
          ((loopResult d fixed oracle st params numRuns knockout).asKnockoutResult d,
            loopState d fixed oracle st params numRuns knockout, true)
        else
          (loopResult d fixed oracle st params numRuns knockout,
            loopState d fixed oracle st params numRuns knockout, false) := rfl

/-! ### Further structural lemmas about `evaluate` and its helpers -/

theorem cachedResult_scores (st : ScorerState) (fixed p : List (String × PyVal)) :
    (cachedResult st fixed p).scores = scoresAt st (keyOf fixed p) := by
  unfold cachedResult scoresAt
  cases st.cache (keyOf fixed p) <;> rfl

theorem cachedResult_scores_congr (st : ScorerState) {fixed p1 p2 : List (String × PyVal)}
    (hkey : keyOf fixed p1 = keyOf fixed p2) :
    (cachedResult st fixed p1).scores = (cachedResult st fixed p2).scores := by
  rw [cachedResult_scores, cachedResult_scores, hkey]

theorem asKnockoutResult_scores (d : Direction) (r : MultiResult) :
    (r.asKnockoutResult d).scores
      = List.replicate r.scores.length (Metric.worst d r.scores) := rfl

theorem scoresAt_loopState (d : Direction) (fixed : List (String × PyVal)) (oracle : ℕ → ℚ)
    (st : ScorerState) (p : List (String × PyVal)) (n : ℕ) (ko : Option ℚ)
    (k2 : Finset (String × PyVal)) :
    scoresAt (loopState d fixed oracle st p n ko) k2
      = if k2 = keyOf fixed p then (loopOut d fixed oracle st p n ko).1
        else scoresAt st k2 := by
  unfold scoresAt loopState
  by_cases h : k2 = keyOf fixed p <;> simp [h, loopResult]

/-! ### `parameter_evaluator.py` structural lemmas -/

theorem fillBaselineScores_spec (oracle : ℕ → ℚ) :
    ∀ (missing : ℕ) (scores : List ℚ) (n : ℕ),
      fillBaselineScores oracle scores n missing
        = (scores ++ oracleOutputs oracle n missing, n + missing) := by
  intro missing
  induction missing with
  | zero =>
    intro scores n
    simp [fillBaselineScores, oracleOutputs]
  | succ m ih =>
    intro scores n
    show fillBaselineScores oracle (scores ++ [oracle n]) (n + 1) m = _
    rw [ih, oracleOutputs_succ]
    have h1 : scores ++ [oracle n] ++ oracleOutputs oracle (n + 1) m
        = scores ++ oracle n :: oracleOutputs oracle (n + 1) m := by
      simp
    have h2 : n + 1 + m = n + (m + 1) := by omega
    rw [h1, h2]

theorem sweepVariants_diff_pos (oracle : ℕ → ℚ) {w avg : ℚ} (hwa : w ≤ avg) :
    ∀ (ps : List (String × PyVal)) (n : ℕ) (kd : String × ℚ),
      kd ∈ (sweepVariants oracle w avg n ps).2.1 → 0 < kd.2 := by
  intro ps
  induction ps with
  | nil =>
    intro n kd h
    cases h
  | cons kv rest ih =>
    obtain ⟨k, v⟩ := kv
    intro n kd h
    by_cases hs : oracle n ≥ w
    · rw [show sweepVariants oracle w avg n ((k, v) :: rest)
          = sweepVariants oracle w avg (n + 1) rest from by
        simp [sweepVariants, hs]] at h
      exact ih (n + 1) kd h
    · rw [show sweepVariants oracle w avg n ((k, v) :: rest)
          = ((k, v) :: (sweepVariants oracle w avg (n + 1) rest).1,
              (k, |avg - oracle n|) :: (sweepVariants oracle w avg (n + 1) rest).2.1,
              (sweepVariants oracle w avg (n + 1) rest).2.2) from by
        simp [sweepVariants, hs]] at h
      rcases List.mem_cons.mp h with rfl | hmem
      · have hlt : oracle n < w := lt_of_not_ge hs
        have : 0 < avg - oracle n := by linarith
        simpa [abs_of_pos this] using this
      · exact ih (n + 1) kd hmem

theorem sum_snd_pos {l : List (String × ℚ)} (hne : l ≠ []) (hpos : ∀ kd ∈ l, 0 < kd.2) :
    0 < (l.map Prod.snd).sum := by
  match l with
  | [] => exact absurd rfl hne
  | x :: t =>
    simp only [List.map_cons, List.sum_cons]
    have h0 : 0 < x.2 := hpos x (List.mem_cons_self x t)
    have ht : 0 ≤ (t.map Prod.snd).sum := by
      apply List.sum_nonneg
      intro y hy
      rcases List.mem_map.mp hy with ⟨kd, hkd, rfl⟩
      exact (hpos kd (List.mem_cons_of_mem x hkd)).le
    linarith

theorem scoresAt_eq_of_cache {st : ScorerState} {k : Finset (String × PyVal)}
    {r : MultiResult} (h : st.cache k = some r) : scoresAt st k = r.scores := by
  unfold scoresAt
  rw [h]

theorem knockoutCached_true {d : Direction} {ko : Option ℚ} {r : MultiResult}
    (h : knockoutCached d ko r = true) :
    ∃ c, ko = some c ∧ 0 < r.scores.length
      ∧ isKnockout d (Metric.worst d r.scores) c = true := by
  cases ko with
  | none => exact Bool.noConfusion h
  | some c =>
    simp only [knockoutCached, Bool.and_eq_true, decide_eq_true_eq] at h
    exact ⟨c, rfl, h.1, h.2⟩

theorem cache_some_of_length_pos {st : ScorerState} {fixed a : List (String × PyVal)}
    (h : 0 < (cachedResult st fixed a).scores.length) :
    st.cache (keyOf fixed a) = some (cachedResult st fixed a) := by
  unfold cachedResult at h ⊢
  cases hc : st.cache (keyOf fixed a) with
  | none =>
    rw [hc] at h
    simp at h
  | some r =>
    rfl

/-- `evaluate` with `knockout_score=None` never returns through a knockout
short-circuit. -/
theorem evaluate_none_not_knocked (d : Direction) (fixed : List (String × PyVal))
    (oracle : ℕ → ℚ) (st : ScorerState) (a : List (String × PyVal)) (n : ℕ) :
    (CachingScorer.evaluate d fixed oracle st a n none).2.2 = false := by
  rw [evaluate_eq]
  by_cases h1 : n ≤ (cachedResult st fixed a).scores.length
  · rw [if_pos h1]
  · have h2 : knockoutCached d none (cachedResult st fixed a) = false := rfl
    have h3 : (loopOut d fixed oracle st a n none).2.2 = false :=
      evalLoop_none_not_knocked d oracle _ _ _
    rw [if_neg h1, if_neg (by simp [h2]), if_neg (by simp [h3])]

/-- Master lemma for calls of `evaluate` that do not return through a
knockout short-circuit: the returned score list is the cached one extended
by the next missing oracle outputs, the cache entry for the key holds that
same list afterwards, other keys are untouched, and the solver was invoked
exactly `numRuns - (stored count)` more times. -/
theorem evaluate_not_knocked_spec (d : Direction) (fixed : List (String × PyVal))
    (oracle : ℕ → ℚ) (st : ScorerState) (a : List (String × PyVal)) (n : ℕ) (ko : Option ℚ)
    (h : (CachingScorer.evaluate d fixed oracle st a n ko).2.2 = false) :
    (CachingScorer.evaluate d fixed oracle st a n ko).1.scores
        = scoresAt st (keyOf fixed a)
          ++ oracleOutputs oracle st.nSolves (n - (scoresAt st (keyOf fixed a)).length)
    ∧ scoresAt (CachingScorer.evaluate d fixed oracle st a n ko).2.1 (keyOf fixed a)
        = (CachingScorer.evaluate d fixed oracle st a n ko).1.scores
    ∧ (∀ k2, k2 ≠ keyOf fixed a →
        scoresAt (CachingScorer.evaluate d fixed oracle st a n ko).2.1 k2 = scoresAt st k2)
    ∧ (CachingScorer.evaluate d fixed oracle st a n ko).2.1.nSolves
        = st.nSolves + (n - (scoresAt st (keyOf fixed a)).length) := by
  have hsc := cachedResult_scores st fixed a
  have hlen : (cachedResult st fixed a).scores.length = (scoresAt st (keyOf fixed a)).length := by
    rw [hsc]
  by_cases h1 : n ≤ (cachedResult st fixed a).scores.length
  · rw [evaluate_eq, if_pos h1]
    have hmiss : n - (scoresAt st (keyOf fixed a)).length = 0 := by omega
    refine ⟨?_, ?_, fun k2 _ => rfl, ?_⟩
    · show (cachedResult st fixed a).scores = _
      rw [hmiss, oracleOutputs_zero, List.append_nil, hsc]
    · show scoresAt st (keyOf fixed a) = (cachedResult st fixed a).scores
      exact hsc.symm
    · show st.nSolves = st.nSolves + (n - (scoresAt st (keyOf fixed a)).length)
      omega
  · by_cases h2 : knockoutCached d ko (cachedResult st fixed a) = true
    · rw [evaluate_eq, if_neg h1, if_pos h2] at h
      simp at h
    · rw [evaluate_eq, if_neg h1, if_neg h2] at h ⊢
      by_cases h3 : (loopOut d fixed oracle st a n ko).2.2 = true
      · rw [if_pos h3] at h
        simp at h
      · rw [if_neg h3] at h ⊢
        have hLO : loopOut d fixed oracle st a n ko
            = evalLoop d oracle ko (cachedResult st fixed a).scores st.nSolves
              (n - (cachedResult st fixed a).scores.length) := rfl
        have hspec := evalLoop_spec d oracle ko
          (n - (cachedResult st fixed a).scores.length)
          (cachedResult st fixed a).scores st.nSolves
        rw [← hLO] at hspec
        have hfull := evalLoop_not_knocked d oracle ko
          (n - (cachedResult st fixed a).scores.length)
          (cachedResult st fixed a).scores st.nSolves
          (by rw [← hLO]; exact Bool.eq_false_iff.mpr h3)
        rw [← hLO] at hfull
        have hcnt : (loopOut d fixed oracle st a n ko).2.1 - st.nSolves
            = n - (scoresAt st (keyOf fixed a)).length := by omega
        refine ⟨?_, ?_, ?_, ?_⟩
        · show (loopOut d fixed oracle st a n ko).1 = _
          rw [hspec.1, hsc, hcnt]
        · rw [scoresAt_loopState, if_pos rfl]
          rfl
        · intro k2 hk2
          rw [scoresAt_loopState, if_neg hk2]
        · show (loopOut d fixed oracle st a n ko).2.1 = _
          omega

/-- Master lemma for calls of `evaluate` that return through a knockout
short-circuit: the cache entry for the key holds the true observations
(the previous cached scores plus the oracle outputs actually drawn), the
returned result is the flattened `as_knockout_result` of that entry, the
worst stored value is no better than the knockout score, and the solver
was invoked exactly once per newly stored observation. -/
theorem evaluate_knocked_spec (d : Direction) (fixed : List (String × PyVal))
    (oracle : ℕ → ℚ) (st : ScorerState) (a : List (String × PyVal)) (n : ℕ) (ko : Option ℚ)
    (h : (CachingScorer.evaluate d fixed oracle st a n ko).2.2 = true) :
    ∃ r : MultiResult, ∃ c : ℚ,
      ko = some c
      ∧ (CachingScorer.evaluate d fixed oracle st a n ko).2.1.cache (keyOf fixed a) = some r
      ∧ r.scores = scoresAt st (keyOf fixed a)
          ++ oracleOutputs oracle st.nSolves
            ((CachingScorer.evaluate d fixed oracle st a n ko).2.1.nSolves - st.nSolves)
      ∧ (CachingScorer.evaluate d fixed oracle st a n ko).1 = r.asKnockoutResult d
      ∧ isKnockout d (Metric.worst d r.scores) c = true
      ∧ (scoresAt st (keyOf fixed a)).length < n
      ∧ r.scores.length ≤ n
      ∧ st.nSolves ≤ (CachingScorer.evaluate d fixed oracle st a n ko).2.1.nSolves
      ∧ (CachingScorer.evaluate d fixed oracle st a n ko).2.1.nSolves - st.nSolves
          = r.scores.length - (scoresAt st (keyOf fixed a)).length
      ∧ (∀ k2, k2 ≠ keyOf fixed a →
          scoresAt (CachingScorer.evaluate d fixed oracle st a n ko).2.1 k2
            = scoresAt st k2) := by
  have hsc := cachedResult_scores st fixed a
  have hlen : (cachedResult st fixed a).scores.length = (scoresAt st (keyOf fixed a)).length := by
    rw [hsc]
  by_cases h1 : n ≤ (cachedResult st fixed a).scores.length
  · rw [evaluate_eq, if_pos h1] at h
    simp at h
  · by_cases h2 : knockoutCached d ko (cachedResult st fixed a) = true
    · rcases knockoutCached_true h2 with ⟨c, rfl, hpos, hworst⟩
      rw [evaluate_eq, if_neg h1, if_pos h2]
      dsimp only
      refine ⟨cachedResult st fixed a, c, rfl, ?_, ?_, rfl, hworst, by omega, ?_,
        le_rfl, ?_, fun k2 _ => rfl⟩
      · exact cache_some_of_length_pos hpos
      · show (cachedResult st fixed a).scores
            = scoresAt st (keyOf fixed a) ++ oracleOutputs oracle st.nSolves (st.nSolves - st.nSolves)
        rw [Nat.sub_self, oracleOutputs_zero, List.append_nil, hsc]
      · show (cachedResult st fixed a).scores.length ≤ n
        omega
      · show st.nSolves - st.nSolves
            = (cachedResult st fixed a).scores.length - (scoresAt st (keyOf fixed a)).length
        omega
    · rw [evaluate_eq, if_neg h1, if_neg h2] at h ⊢
      by_cases h3 : (loopOut d fixed oracle st a n ko).2.2 = true
      · rw [if_pos h3] at h ⊢
        have hLO : loopOut d fixed oracle st a n ko
            = evalLoop d oracle ko (cachedResult st fixed a).scores st.nSolves
              (n - (cachedResult st fixed a).scores.length) := rfl
        have hspec := evalLoop_spec d oracle ko
          (n - (cachedResult st fixed a).scores.length)
          (cachedResult st fixed a).scores st.nSolves
        rw [← hLO] at hspec
        cases ko with
        | none =>
          have := evalLoop_none_not_knocked d oracle
            (n - (cachedResult st fixed a).scores.length)
            (cachedResult st fixed a).scores st.nSolves
          rw [← hLO] at this
          rw [this] at h3
          exact Bool.noConfusion h3
        | some c =>
          have hknock := evalLoop_knocked d oracle c
            (n - (cachedResult st fixed a).scores.length)
            (cachedResult st fixed a).scores st.nSolves (by rw [← hLO]; exact h3)
          rw [← hLO] at hknock
          rcases hknock with ⟨hlt, s, hs, hks⟩
          have hout_len : (loopOut d fixed oracle st a n (some c)).1.length
              = (scoresAt st (keyOf fixed a)).length
                + ((loopOut d fixed oracle st a n (some c)).2.1 - st.nSolves) := by
            rw [hspec.1, List.length_append, length_oracleOutputs, hsc]
          dsimp only
          rw [show (loopState d fixed oracle st a n (some c)).nSolves
              = (loopOut d fixed oracle st a n (some c)).2.1 from rfl]
          refine ⟨loopResult d fixed oracle st a n (some c), c, rfl, ?_, ?_, rfl, ?_,
            by omega, ?_, ?_, ?_, ?_⟩
          · simp [loopState]
          · show (loopOut d fixed oracle st a n (some c)).1 = _
            rw [hspec.1, hsc]
          · exact isKnockout_worst_of_mem hs hks
          · show (loopOut d fixed oracle st a n (some c)).1.length ≤ n
            omega
          · exact hspec.2.1
          · show (loopOut d fixed oracle st a n (some c)).2.1 - st.nSolves
              = (loopOut d fixed oracle st a n (some c)).1.length
                - (scoresAt st (keyOf fixed a)).length
            omega
          · intro k2 hk2
            rw [scoresAt_loopState, if_neg hk2]
      · rw [if_neg h3] at h
        simp at h

theorem sweepVariants_spec (oracle : ℕ → ℚ) (w avg : ℚ) :
    ∀ (ps : List (String × PyVal)) (n : ℕ),
      sweepVariants oracle w avg n ps
        = (((ps.enumFrom n).filter fun q => decide (oracle q.1 < w)).map Prod.snd,
           ((ps.enumFrom n).filter fun q => decide (oracle q.1 < w)).map
             (fun q => (q.2.1, |avg - oracle q.1|)),
           n + ps.length) := by
  intro ps
  induction ps with
  | nil =>
    intro n
    simp [sweepVariants]
  | cons kv rest ih =>
    obtain ⟨k, v⟩ := kv
    intro n
    simp only [sweepVariants]
    by_cases hs : oracle n ≥ w
    · have hc : decide (oracle n < w) = false := by
        simp only [decide_eq_false_iff_not, not_lt]
        exact hs
      rw [if_pos hs, ih, List.enumFrom_cons, List.filter_cons, hc]
      simp only [Bool.false_eq_true, if_false, List.length_cons, Prod.mk.injEq]
      refine ⟨trivial, trivial, by omega⟩
    · have hlt : oracle n < w := lt_of_not_ge hs
      have hc : decide (oracle n < w) = true := by
        simpa using hlt
      rw [if_neg hs, ih, List.enumFrom_cons, List.filter_cons, hc]
      simp only [if_true, List.map_cons, List.length_cons, Prod.mk.injEq]
      refine ⟨trivial, trivial, by omega⟩

theorem sum_map_div (l : List (String × ℚ)) (t : ℚ) :
    ((l.map fun kd => (kd.1, kd.2 / t)).map Prod.snd).sum = (l.map Prod.snd).sum / t := by
  induction l with
  | nil => simp
  | cons x xs ih =>
    simp only [List.map_cons, List.sum_cons]
    rw [ih, add_div]

/-! ## Claim theorems -/

/-- C8: `MinGapWithinTimelimit`'s score function returns
`min(limit, |objective − best_bound| / max(1, |objective|))` when a
feasible solution was found and `limit` when the run is infeasible or
timed out; the denominator is floored at 1, so the gap computation never
divides by zero, for every objective value including 0. -/
theorem min_gap_within_timelimit_spec (m : MinGapWithinTimelimit) (o : SolveOutcome) :
    m.call o
        = ((if o.status.isFeasible then
              min m.limit (|o.objectiveValue - o.bestObjectiveBound| / max 1 |o.objectiveValue|)
            else m.limit : ℚ) : WithTop ℚ)
      ∧ (1 : ℚ) ≤ max 1 |o.objectiveValue| := by
  refine ⟨?_, le_max_left 1 _⟩
  unfold MinGapWithinTimelimit.call
  by_cases hf : o.status.isFeasible
  · rw [if_pos hf, if_pos hf, ← WithTop.coe_min, min_comm]
  · rw [if_neg hf, if_neg hf]
    exact min_eq_right le_top

/-- C9: the contribution normalization in `ParameterEvaluator.evaluate`
never divides by zero: a parameter is kept only when its variant score is
strictly below the worst (minimum) candidate-baseline observation, so
every recorded diff `abs(baseline_avg - score)` is strictly positive and
the total is nonzero whenever the diff dict is nonempty; with an empty
diff dict the comprehension performs no division at all. -/
theorem normalization_no_division_by_zero (oracle : ℕ → ℚ) (ev : ParameterEvaluator)
    (h : 0 < ev.min_baseline_size) :
    ParameterEvaluator.normalizationDividesByZero oracle ev = false := by
  unfold ParameterEvaluator.normalizationDividesByZero
  rw [fillBaselineScores_spec]
  simp only [Nat.zero_add]
  set bl := ev.baseline_values ++ oracleOutputs oracle 0
    (ev.min_baseline_size - ev.baseline_values.length) with hbl
  have hne : bl ≠ [] := by
    intro hempty
    rw [hbl] at hempty
    rcases List.append_eq_nil.mp hempty with ⟨hbv, hout⟩
    have hlen := congrArg List.length hout
    rw [length_oracleOutputs, hbv] at hlen
    simp at hlen
    omega
  have hwa : pyMin bl ≤ pyMean bl := pyMin_le_pyMean hne
  set sw := sweepVariants oracle (pyMin bl) (pyMean bl)
    (ev.min_baseline_size - ev.baseline_values.length) ev.params with hsw
  by_cases hd : sw.2.1 = []
  · simp [hd]
  · have hsum : 0 < (sw.2.1.map Prod.snd).sum := by
      apply sum_snd_pos hd
      intro kd hkd
      rw [hsw] at hkd
      exact sweepVariants_diff_pos oracle hwa ev.params
        (ev.min_baseline_size - ev.baseline_values.length) kd hkd
    simp [hd, ne_of_gt hsum]

/-- C9 witness: the no-division-by-zero theorem applied to the concrete
evaluator `ev5`. -/
theorem normalization_no_division_by_zero_witness :
    0 < ev5.min_baseline_size
      ∧ ParameterEvaluator.normalizationDividesByZero orac5 ev5 = false :=
  ⟨by decide, normalization_no_division_by_zero orac5 ev5 (by decide)⟩

/-- C4: the cache key first removes parameters named in the fixed set,
then normalizes list and tuple values by sorting, so `{"a": [2,1]}` and
`{"a": (1,2)}` share a key; two assignments with the same normalized key
are served by the same cache entry — `evaluate` produces the same score
list, the same solver-call count and the same cached score lists. -/
theorem cache_key_normalization
    (fixed p1 p2 : List (String × PyVal)) (k : String) (v : PyVal)
    (d : Direction) (oracle : ℕ → ℚ) (st : ScorerState) (n : ℕ) (ko : Option ℚ)
    (hfix : (fixed.map Prod.fst).contains k = true)
    (hkey : keyOf fixed p1 = keyOf fixed p2) :
    keyOf fixed ((k, v) :: p1) = keyOf fixed p1
    ∧ keyOf [] listParams = keyOf [] tupleParams
    ∧ (CachingScorer.evaluate d fixed oracle st p1 n ko).1.scores
        = (CachingScorer.evaluate d fixed oracle st p2 n ko).1.scores
    ∧ (CachingScorer.evaluate d fixed oracle st p1 n ko).2.1.nSolves
        = (CachingScorer.evaluate d fixed oracle st p2 n ko).2.1.nSolves
    ∧ ∀ k2, scoresAt (CachingScorer.evaluate d fixed oracle st p1 n ko).2.1 k2
        = scoresAt (CachingScorer.evaluate d fixed oracle st p2 n ko).2.1 k2 := by
  have hsc := cachedResult_scores_congr st hkey
  have hout : loopOut d fixed oracle st p1 n ko = loopOut d fixed oracle st p2 n ko := by
    unfold loopOut
    rw [hsc]
  have hkc : knockoutCached d ko (cachedResult st fixed p1)
      = knockoutCached d ko (cachedResult st fixed p2) := by
    cases ko <;> simp [knockoutCached, hsc]
  refine ⟨?_, by decide, ?_⟩
  · have hmem : k ∈ fixed.map Prod.fst := by
      simpa using hfix
    unfold keyOf removeFixedParams
    simp [List.filter_cons, hmem]
  rw [evaluate_eq, evaluate_eq, hsc, hkc, hout]
  split_ifs with h1 h2 h3
  · exact ⟨hsc, rfl, fun k2 => rfl⟩
  · refine ⟨?_, rfl, fun k2 => rfl⟩
    rw [asKnockoutResult_scores, asKnockoutResult_scores, hsc]
  · refine ⟨?_, ?_, ?_⟩
    · rw [asKnockoutResult_scores, asKnockoutResult_scores]
      show List.replicate (loopOut d fixed oracle st p1 n ko).1.length
          (Metric.worst d (loopOut d fixed oracle st p1 n ko).1) = _
      rw [hout]
      rfl
    · show (loopOut d fixed oracle st p1 n ko).2.1 = (loopOut d fixed oracle st p2 n ko).2.1
      rw [hout]
    · intro k2
      rw [scoresAt_loopState, scoresAt_loopState, hkey, hout]
  · refine ⟨?_, ?_, ?_⟩
    · show (loopOut d fixed oracle st p1 n ko).1 = (loopOut d fixed oracle st p2 n ko).1
      rw [hout]
    · show (loopOut d fixed oracle st p1 n ko).2.1 = (loopOut d fixed oracle st p2 n ko).2.1
      rw [hout]
    · intro k2
      rw [scoresAt_loopState, scoresAt_loopState, hkey, hout]

/-- C4 witness: the theorem applied with the fixed name `"f"` and the
concrete pair `{"a": [2,1]}` / `{"a": (1,2)}`. -/
theorem cache_key_normalization_witness :
    ((fixedC4.map Prod.fst).contains "f" = true)
    ∧ keyOf fixedC4 listParams = keyOf fixedC4 tupleParams
    ∧ keyOf fixedC4 (("f", PyVal.num 7) :: listParams) = keyOf fixedC4 listParams := by
  refine ⟨by decide, by decide, ?_⟩
  exact (cache_key_normalization fixedC4 listParams tupleParams "f" (PyVal.num 7)
    .minimize (fun _ => 0) stEmpty 1 none (by decide) (by decide)).1

/-- C7: the per-trial strategy's knockout threshold
`prune_if_below = min(baseline) - 0.1*(max(baseline) - min(baseline))` is
computed over the internal higher-is-better scores of `objective.py`; for
the negating `MinObjective` metric this equals the negation of
`raw worst + 0.1 × raw spread`, and for non-negated (maximize) scores it
is `worst − 0.1 × spread` directly.  In the concrete scenario with raw
baseline scores `[10,12,11,13,10]` (threshold 13.3) a candidate whose
first run scores 14 is returned immediately: exactly one candidate solver
call happens (six in total after the five baseline runs). -/
theorem objective_knockout_threshold (raw : List ℚ) (hraw : raw ≠ []) :
    Objective.pruneIfBelow (raw.map fun x => -x)
        = -(pyMax raw + (1 / 10) * (pyMax raw - pyMin raw))
    ∧ Objective.pruneIfBelow raw = pyMin raw - (1 / 10) * (pyMax raw - pyMin raw)
    ∧ (Objective.call cfg7 orac7 stO key7).1 = -14
    ∧ (Objective.call cfg7 orac7 stO key7).2.nSolves = 6
    ∧ ((Objective.call cfg7 orac7 stO key7).2.samples key7).getD [] = [-14]
    ∧ (Objective.call cfg7 orac7 stO key7).2.baseline = [-10, -12, -11, -13, -10]
    ∧ Objective.pruneIfBelow [-10, -12, -11, -13, -10] = -(133 / 10) := by
  refine ⟨?_, rfl, by decide, by decide, by decide, by decide, by decide⟩
  unfold Objective.pruneIfBelow
  rw [pyMin_map_neg hraw, pyMax_map_neg hraw]
  ring

/-- C3: after an un-knocked `evaluate(a, n1)` starting from a state whose
cache holds at most `n1` observations for `a`, an un-knocked
`evaluate(a, n2)` with `n1 < n2` returns a score list of length `n2`
whose first `n1` entries equal the first call's scores exactly; and every
`evaluate` call only ever extends a cached score list by appending — the
old list is the `take` of its own length of the new one, for every key. -/
theorem evaluate_monotonic_growth
    (d : Direction) (fixed : List (String × PyVal)) (oracle : ℕ → ℚ) (st0 : ScorerState)
    (a : List (String × PyVal)) (n1 n2 : ℕ) (ko1 ko2 : Option ℚ)
    (h12 : n1 < n2)
    (hlen : (scoresAt st0 (keyOf fixed a)).length ≤ n1)
    (h1 : (CachingScorer.evaluate d fixed oracle st0 a n1 ko1).2.2 = false)
    (h2 : (CachingScorer.evaluate d fixed oracle
        (CachingScorer.evaluate d fixed oracle st0 a n1 ko1).2.1 a n2 ko2).2.2 = false) :
    (CachingScorer.evaluate d fixed oracle
        (CachingScorer.evaluate d fixed oracle st0 a n1 ko1).2.1 a n2 ko2).1.scores.length = n2
    ∧ (CachingScorer.evaluate d fixed oracle
        (CachingScorer.evaluate d fixed oracle st0 a n1 ko1).2.1 a n2 ko2).1.scores.take n1
        = (CachingScorer.evaluate d fixed oracle st0 a n1 ko1).1.scores
    ∧ ∀ (st : ScorerState) (p : List (String × PyVal)) (m : ℕ) (ko : Option ℚ)
        (k : Finset (String × PyVal)),
        scoresAt st k
          = (scoresAt (CachingScorer.evaluate d fixed oracle st p m ko).2.1 k).take
              (scoresAt st k).length := by
  obtain ⟨ha1, hb1, hc1, hd1⟩ := evaluate_not_knocked_spec d fixed oracle st0 a n1 ko1 h1
  have hlen1 : (CachingScorer.evaluate d fixed oracle st0 a n1 ko1).1.scores.length = n1 := by
    rw [ha1, List.length_append, length_oracleOutputs]
    omega
  obtain ⟨ha2, hb2, hc2, hd2⟩ := evaluate_not_knocked_spec d fixed oracle
    (CachingScorer.evaluate d fixed oracle st0 a n1 ko1).2.1 a n2 ko2 h2
  rw [hb1] at ha2 hd2
  refine ⟨?_, ?_, ?_⟩
  · rw [ha2, List.length_append, length_oracleOutputs, hlen1]
    omega
  · rw [ha2]
    exact List.take_left' hlen1
  · intro st p m ko k
    by_cases hflag : (CachingScorer.evaluate d fixed oracle st p m ko).2.2 = true
    · obtain ⟨r, c, _, hcache, hscores, _, _, _, _, _, _, hframe⟩ :=
        evaluate_knocked_spec d fixed oracle st p m ko hflag
      by_cases hk : k = keyOf fixed p
      · subst hk
        rw [scoresAt_eq_of_cache hcache, hscores]
        exact (List.take_left _ _).symm
      · rw [hframe k hk, List.take_length]
    · have hflag' := Bool.eq_false_iff.mpr hflag
      obtain ⟨ha, hb, hc, _⟩ := evaluate_not_knocked_spec d fixed oracle st p m ko hflag'
      by_cases hk : k = keyOf fixed p
      · subst hk
        rw [hb, ha]
        exact (List.take_left _ _).symm
      · rw [hc k hk, List.take_length]

/-- C3 witness: growth from one to two samples with a fresh cache. -/
theorem evaluate_monotonic_growth_witness :
    (1 : ℕ) < 2
    ∧ (scoresAt stEmpty (keyOf [] assignX)).length ≤ 1
    ∧ (CachingScorer.evaluate .minimize [] oracC3 stEmpty assignX 1 none).2.2 = false
    ∧ (CachingScorer.evaluate .minimize [] oracC3
        (CachingScorer.evaluate .minimize [] oracC3 stEmpty assignX 1 none).2.1
        assignX 2 none).2.2 = false
    ∧ (CachingScorer.evaluate .minimize [] oracC3
        (CachingScorer.evaluate .minimize [] oracC3 stEmpty assignX 1 none).2.1
        assignX 2 none).1.scores.length = 2 := by
  refine ⟨by decide, by decide, by decide, by decide, ?_⟩
  exact (evaluate_monotonic_growth .minimize [] oracC3 stEmpty assignX 1 2 none none
    (by decide) (by decide) (by decide) (by decide)).1

/-- C10: a knockout return never stores flattened copies: afterwards the
cache entry for the assignment holds exactly the previously stored scores
extended by the scores the solver actually produced in this call, the
returned result is a fresh flattened copy of that entry, and a later
`evaluate` without a knockout score resumes from the true observations
(they are a prefix of every later returned score list). -/
theorem knockout_frame_property
    (d : Direction) (fixed : List (String × PyVal)) (oracle : ℕ → ℚ) (st : ScorerState)
    (a : List (String × PyVal)) (n : ℕ) (ko : Option ℚ)
    (h : (CachingScorer.evaluate d fixed oracle st a n ko).2.2 = true) :
    ∃ r : MultiResult,
      (CachingScorer.evaluate d fixed oracle st a n ko).2.1.cache (keyOf fixed a) = some r
      ∧ r.scores = scoresAt st (keyOf fixed a)
          ++ oracleOutputs oracle st.nSolves
            ((CachingScorer.evaluate d fixed oracle st a n ko).2.1.nSolves - st.nSolves)
      ∧ (CachingScorer.evaluate d fixed oracle st a n ko).1 = r.asKnockoutResult d
      ∧ ∀ n2, (CachingScorer.evaluate d fixed oracle
            (CachingScorer.evaluate d fixed oracle st a n ko).2.1 a n2 none).1.scores.take
            r.scores.length = r.scores := by
  obtain ⟨r, c, hko, hcache, hscores, hres, hworst, hlt, hlenle, hnsle, hdiff, hframe⟩ :=
    evaluate_knocked_spec d fixed oracle st a n ko h
  refine ⟨r, hcache, hscores, hres, ?_⟩
  intro n2
  have hflag2 := evaluate_none_not_knocked d fixed oracle
    (CachingScorer.evaluate d fixed oracle st a n ko).2.1 a n2
  obtain ⟨ha2, _, _, _⟩ := evaluate_not_knocked_spec d fixed oracle
    (CachingScorer.evaluate d fixed oracle st a n ko).2.1 a n2 none hflag2
  rw [ha2, scoresAt_eq_of_cache hcache]
  exact List.take_left _ _

/-- C10 witness: the frame property at the one-run knockout scenario. -/
theorem knockout_frame_property_witness :
    ((CachingScorer.evaluate .minimize [] oracC1 stEmpty assignX 3 (some 10)).2.2 = true)
    ∧ ∃ r : MultiResult,
      (CachingScorer.evaluate .minimize [] oracC1 stEmpty assignX 3 (some 10)).2.1.cache
          (keyOf [] assignX) = some r
      ∧ r.scores = scoresAt stEmpty (keyOf [] assignX)
          ++ oracleOutputs oracC1 stEmpty.nSolves
            ((CachingScorer.evaluate .minimize [] oracC1 stEmpty assignX 3
                (some 10)).2.1.nSolves - stEmpty.nSolves)
      ∧ (CachingScorer.evaluate .minimize [] oracC1 stEmpty assignX 3 (some 10)).1
          = r.asKnockoutResult .minimize
      ∧ ∀ n2, (CachingScorer.evaluate .minimize [] oracC1
            (CachingScorer.evaluate .minimize [] oracC1 stEmpty assignX 3 (some 10)).2.1
            assignX n2 none).1.scores.take r.scores.length = r.scores :=
  ⟨by decide, knockout_frame_property .minimize [] oracC1 stEmpty assignX 3 (some 10) (by decide)⟩

/-- C1 counterexample: minimize with knockout score 10 and `num_runs = 3`
from a fresh cache; the first run scores 15, which is WORSE than 10, so
the call knocks out after `k = 1` observation — but the returned score
sequence is `[15]`, a single copy of the worst observed value, not
`num_runs = 3` copies as the claim states. -/
theorem as_knockout_length_counterexample :
    (CachingScorer.evaluate .minimize [] oracC1 stEmpty assignX 3 (some 10)).1.scores = [15]
    ∧ Metric.comp .minimize 15 10 = .WORSE
    ∧ (((CachingScorer.evaluate .minimize [] oracC1 stEmpty assignX 3
        (some 10)).1.scores.length : ℕ) == 3) = false := by
  decide

/-- C1 (amended): on any knockout return the returned score sequence
consists of `L` copies of the single worst observed value, where `L` is
the number of observations stored for the assignment at knockout time
(`L ≤ num_runs`, with `L < num_runs` possible — not always `num_runs`
copies); the number of solve invocations in the call equals the number of
newly stored observations, hence at most `num_runs` minus the previously
stored count (in particular at most `k + 1` when the knockout fires at
the `k + 1`-st stored observation). -/
theorem knockout_flattening_amended
    (d : Direction) (fixed : List (String × PyVal)) (oracle : ℕ → ℚ) (st : ScorerState)
    (a : List (String × PyVal)) (numRuns : ℕ) (ko : Option ℚ)
    (h : (CachingScorer.evaluate d fixed oracle st a numRuns ko).2.2 = true) :
    ∃ r : MultiResult,
      (CachingScorer.evaluate d fixed oracle st a numRuns ko).2.1.cache (keyOf fixed a) = some r
      ∧ (CachingScorer.evaluate d fixed oracle st a numRuns ko).1.scores
          = List.replicate r.scores.length (Metric.worst d r.scores)
      ∧ r.scores.length ≤ numRuns
      ∧ (CachingScorer.evaluate d fixed oracle st a numRuns ko).2.1.nSolves - st.nSolves
          = r.scores.length - (scoresAt st (keyOf fixed a)).length
      ∧ (CachingScorer.evaluate d fixed oracle st a numRuns ko).2.1.nSolves - st.nSolves
          ≤ numRuns - (scoresAt st (keyOf fixed a)).length := by
  obtain ⟨r, c, hko, hcache, hscores, hres, hworst, hlt, hlenle, hnsle, hdiff, hframe⟩ :=
    evaluate_knocked_spec d fixed oracle st a numRuns ko h
  refine ⟨r, hcache, ?_, hlenle, hdiff, ?_⟩
  · rw [hres]
    rfl
  · omega

/-- C1 witness: the amended flattening law at the one-run knockout
scenario. -/
theorem knockout_flattening_amended_witness :
    ((CachingScorer.evaluate .minimize [] oracC1 stEmpty assignX 3 (some 10)).2.2 = true)
    ∧ ∃ r : MultiResult,
      (CachingScorer.evaluate .minimize [] oracC1 stEmpty assignX 3 (some 10)).2.1.cache
          (keyOf [] assignX) = some r
      ∧ (CachingScorer.evaluate .minimize [] oracC1 stEmpty assignX 3 (some 10)).1.scores
          = List.replicate r.scores.length (Metric.worst .minimize r.scores)
      ∧ r.scores.length ≤ 3
      ∧ (CachingScorer.evaluate .minimize [] oracC1 stEmpty assignX 3
            (some 10)).2.1.nSolves - stEmpty.nSolves
          = r.scores.length - (scoresAt stEmpty (keyOf [] assignX)).length
      ∧ (CachingScorer.evaluate .minimize [] oracC1 stEmpty assignX 3
            (some 10)).2.1.nSolves - stEmpty.nSolves
          ≤ 3 - (scoresAt stEmpty (keyOf [] assignX)).length :=
  ⟨by decide,
    knockout_flattening_amended .minimize [] oracC1 stEmpty assignX 3 (some 10) (by decide)⟩

/-- C2 counterexample: minimize with knockout score 10, runs scoring 5
then 12 — `evaluate(a, 2, 10)` from a fresh cache knocks out on its final
run and returns `[12, 12]`; repeating the identical call returns the
cached true scores `[5, 12]`, so the two results are not bit-identical. -/
theorem evaluate_repeat_counterexample :
    (CachingScorer.evaluate .minimize [] oracC2 stEmpty assignX 2 (some 10)).1.scores = [12, 12]
    ∧ (CachingScorer.evaluate .minimize [] oracC2
        (CachingScorer.evaluate .minimize [] oracC2 stEmpty assignX 2 (some 10)).2.1
        assignX 2 (some 10)).1.scores = [5, 12]
    ∧ ((CachingScorer.evaluate .minimize [] oracC2
          (CachingScorer.evaluate .minimize [] oracC2 stEmpty assignX 2 (some 10)).2.1
          assignX 2 (some 10)).1.scores
        == (CachingScorer.evaluate .minimize [] oracC2 stEmpty assignX 2
            (some 10)).1.scores) = false := by
  decide

/-- C2 (amended): repeating `evaluate(a, n)` with the identical knockout
argument performs zero additional solver calls and leaves the scorer
state unchanged, and the repeat's result is bit-identical to the first
call's — except when the first call's knockout fired exactly on its final
stored observation, in which case the repeat returns the cached true
scores and the first result is their knockout-flattened copy; and
whenever the cache already holds at least `n` observations for the key,
`evaluate` returns the stored result unchanged. -/
theorem evaluate_repeat_amended
    (d : Direction) (fixed : List (String × PyVal)) (oracle : ℕ → ℚ) (st : ScorerState)
    (a : List (String × PyVal)) (n : ℕ) (ko : Option ℚ) :
    (CachingScorer.evaluate d fixed oracle
        (CachingScorer.evaluate d fixed oracle st a n ko).2.1 a n ko).2.1
      = (CachingScorer.evaluate d fixed oracle st a n ko).2.1
    ∧ ((CachingScorer.evaluate d fixed oracle
          (CachingScorer.evaluate d fixed oracle st a n ko).2.1 a n ko).1
        = (CachingScorer.evaluate d fixed oracle st a n ko).1
      ∨ (CachingScorer.evaluate d fixed oracle st a n ko).1
        = ((CachingScorer.evaluate d fixed oracle
            (CachingScorer.evaluate d fixed oracle st a n ko).2.1 a n ko).1).asKnockoutResult d)
    ∧ ∀ r, st.cache (keyOf fixed a) = some r → n ≤ r.scores.length →
        CachingScorer.evaluate d fixed oracle st a n ko = (r, st, false) := by
  have hthird : ∀ r, st.cache (keyOf fixed a) = some r → n ≤ r.scores.length →
      CachingScorer.evaluate d fixed oracle st a n ko = (r, st, false) := by
    intro r hr hn
    have hcr : cachedResult st fixed a = r := by
      unfold cachedResult
      rw [hr]
      rfl
    rw [evaluate_eq, hcr, if_pos hn]
  have hmain : (CachingScorer.evaluate d fixed oracle
        (CachingScorer.evaluate d fixed oracle st a n ko).2.1 a n ko).2.1
      = (CachingScorer.evaluate d fixed oracle st a n ko).2.1
    ∧ ((CachingScorer.evaluate d fixed oracle
          (CachingScorer.evaluate d fixed oracle st a n ko).2.1 a n ko).1
        = (CachingScorer.evaluate d fixed oracle st a n ko).1
      ∨ (CachingScorer.evaluate d fixed oracle st a n ko).1
        = ((CachingScorer.evaluate d fixed oracle
            (CachingScorer.evaluate d fixed oracle st a n ko).2.1 a n ko).1).asKnockoutResult d) := by
    by_cases h1 : n ≤ (cachedResult st fixed a).scores.length
    · have e1 : CachingScorer.evaluate d fixed oracle st a n ko
          = (cachedResult st fixed a, st, false) := by
        rw [evaluate_eq, if_pos h1]
      rw [e1]
      dsimp only
      rw [e1]
      exact ⟨rfl, Or.inl rfl⟩
    · by_cases h2 : knockoutCached d ko (cachedResult st fixed a) = true
      · have e1 : CachingScorer.evaluate d fixed oracle st a n ko
            = ((cachedResult st fixed a).asKnockoutResult d, st, true) := by
          rw [evaluate_eq, if_neg h1, if_pos h2]
        rw [e1]
        dsimp only
        rw [e1]
        exact ⟨rfl, Or.inl rfl⟩
      · have hcr1 : cachedResult (loopState d fixed oracle st a n ko) fixed a
            = loopResult d fixed oracle st a n ko := by
          unfold cachedResult loopState
          simp
        by_cases h3 : (loopOut d fixed oracle st a n ko).2.2 = true
        · cases ko with
          | none =>
            exfalso
            have hnone : (loopOut d fixed oracle st a n none).2.2 = false :=
              evalLoop_none_not_knocked d oracle
                (n - (cachedResult st fixed a).scores.length)
                (cachedResult st fixed a).scores st.nSolves
            rw [hnone] at h3
            exact Bool.noConfusion h3
          | some c =>
            have e1 : CachingScorer.evaluate d fixed oracle st a n (some c)
                = ((loopResult d fixed oracle st a n (some c)).asKnockoutResult d,
                   loopState d fixed oracle st a n (some c), true) := by
              rw [evaluate_eq, if_neg h1, if_neg h2, if_pos h3]
            have h3' : (evalLoop d oracle (some c) (cachedResult st fixed a).scores st.nSolves
                (n - (cachedResult st fixed a).scores.length)).2.2 = true := h3
            obtain ⟨hlt, s, hs, hks⟩ := evalLoop_knocked d oracle c
              (n - (cachedResult st fixed a).scores.length)
              (cachedResult st fixed a).scores st.nSolves h3'
            have hspec := evalLoop_spec d oracle (some c)
              (n - (cachedResult st fixed a).scores.length)
              (cachedResult st fixed a).scores st.nSolves
            have hpos : 0 < (loopResult d fixed oracle st a n (some c)).scores.length := by
              have hlr : (loopResult d fixed oracle st a n (some c)).scores.length
                  = (cachedResult st fixed a).scores.length
                    + ((evalLoop d oracle (some c) (cachedResult st fixed a).scores st.nSolves
                        (n - (cachedResult st fixed a).scores.length)).2.1 - st.nSolves) := by
                show (evalLoop d oracle (some c) (cachedResult st fixed a).scores st.nSolves
                    (n - (cachedResult st fixed a).scores.length)).1.length = _
                rw [hspec.1, List.length_append, length_oracleOutputs]
              omega
            have hworst : isKnockout d
                (Metric.worst d (loopResult d fixed oracle st a n (some c)).scores) c = true :=
              isKnockout_worst_of_mem hs hks
            have hkc1 : knockoutCached d (some c) (loopResult d fixed oracle st a n (some c))
                = true := by
              simp only [knockoutCached, Bool.and_eq_true, decide_eq_true_eq]
              exact ⟨hpos, hworst⟩
            by_cases h4 : n ≤ (loopResult d fixed oracle st a n (some c)).scores.length
            · have e2 : CachingScorer.evaluate d fixed oracle
                  (loopState d fixed oracle st a n (some c)) a n (some c)
                  = (loopResult d fixed oracle st a n (some c),
                     loopState d fixed oracle st a n (some c), false) := by
                rw [evaluate_eq, hcr1, if_pos h4]
              rw [e1]
              dsimp only
              rw [e2]
              exact ⟨rfl, Or.inr rfl⟩
            · have e2 : CachingScorer.evaluate d fixed oracle
                  (loopState d fixed oracle st a n (some c)) a n (some c)
                  = ((loopResult d fixed oracle st a n (some c)).asKnockoutResult d,
                     loopState d fixed oracle st a n (some c), true) := by
                rw [evaluate_eq, hcr1, if_neg h4, if_pos hkc1]
              rw [e1]
              dsimp only
              rw [e2]
              exact ⟨rfl, Or.inl rfl⟩
        · have e1 : CachingScorer.evaluate d fixed oracle st a n ko
              = (loopResult d fixed oracle st a n ko, loopState d fixed oracle st a n ko,
                 false) := by
            rw [evaluate_eq, if_neg h1, if_neg h2, if_neg h3]
          have hflag : (evalLoop d oracle ko (cachedResult st fixed a).scores st.nSolves
              (n - (cachedResult st fixed a).scores.length)).2.2 = false :=
            Bool.eq_false_iff.mpr h3
          have hspec := evalLoop_spec d oracle ko
            (n - (cachedResult st fixed a).scores.length)
            (cachedResult st fixed a).scores st.nSolves
          have hfull := evalLoop_not_knocked d oracle ko
            (n - (cachedResult st fixed a).scores.length)
            (cachedResult st fixed a).scores st.nSolves hflag
          have hlen1 : (loopResult d fixed oracle st a n ko).scores.length = n := by
            have hlr : (loopResult d fixed oracle st a n ko).scores.length
                = (cachedResult st fixed a).scores.length
                  + ((evalLoop d oracle ko (cachedResult st fixed a).scores st.nSolves
                      (n - (cachedResult st fixed a).scores.length)).2.1 - st.nSolves) := by
              show (evalLoop d oracle ko (cachedResult st fixed a).scores st.nSolves
                  (n - (cachedResult st fixed a).scores.length)).1.length = _
              rw [hspec.1, List.length_append, length_oracleOutputs]
            omega
          have e2 : CachingScorer.evaluate d fixed oracle
              (loopState d fixed oracle st a n ko) a n ko
              = (loopResult d fixed oracle st a n ko, loopState d fixed oracle st a n ko,
                 false) := by
            rw [evaluate_eq, hcr1, if_pos (le_of_eq hlen1.symm)]
          rw [e1]
          dsimp only
          rw [e2]
          exact ⟨rfl, Or.inl rfl⟩
  exact ⟨hmain.1, hmain.2, hthird⟩

/-- C2 witness: the amended repeat law at the final-run knockout
scenario. -/
theorem evaluate_repeat_amended_witness :
    (CachingScorer.evaluate .minimize [] oracC2
        (CachingScorer.evaluate .minimize [] oracC2 stEmpty assignX 2 (some 10)).2.1
        assignX 2 (some 10)).2.1
      = (CachingScorer.evaluate .minimize [] oracC2 stEmpty assignX 2 (some 10)).2.1
    ∧ ((CachingScorer.evaluate .minimize [] oracC2
          (CachingScorer.evaluate .minimize [] oracC2 stEmpty assignX 2 (some 10)).2.1
          assignX 2 (some 10)).1
        = (CachingScorer.evaluate .minimize [] oracC2 stEmpty assignX 2 (some 10)).1
      ∨ (CachingScorer.evaluate .minimize [] oracC2 stEmpty assignX 2 (some 10)).1
        = ((CachingScorer.evaluate .minimize [] oracC2
            (CachingScorer.evaluate .minimize [] oracC2 stEmpty assignX 2 (some 10)).2.1
            assignX 2 (some 10)).1).asKnockoutResult .minimize) :=
  ⟨(evaluate_repeat_amended .minimize [] oracC2 stEmpty assignX 2 (some 10)).1,
   (evaluate_repeat_amended .minimize [] oracC2 stEmpty assignX 2 (some 10)).2.1⟩

/-- C5: `ParameterEvaluator.evaluate` never compares the candidate to the
default-parameter baseline.  Concretely: every run of the winning
assignment `{p: 1}` scores 5, strictly worse than the default baseline
score 100 under a maximize reading, yet `evaluate()` returns the full
parameter set with contribution `{p: 1.0}` rather than the empty result
the claim (and the class docstring) require. -/
theorem parameter_evaluator_no_default_rejection :
    ParameterEvaluator.evaluate id orac5 ev5
      = { optimized_params := [("p", .num 1)], contribution := [("p", 1)],
          default_score := 100, optimized_score := 5 }
    ∧ Metric.comp .maximize 5 ev5.default_score = .WORSE := by
  decide

/-- C6 counterexample: candidate baseline scores `[4, 6]` (worst 4, mean
5): the claim's threshold is `(4 + 5) / 2 = 4.5`, and the variant score
4.2 without `p` compares WORSE to 4.5 under maximize, so the claim
predicts `p` is kept with sole contribution 1; the code instead drops `p`
because `4.2 >= 4` (the minimum candidate-baseline observation) and
returns empty `optimized_params` and `contribution`. -/
theorem accept_threshold_counterexample :
    ParameterEvaluator.evaluate id orac6 ev6
      = { optimized_params := [], contribution := [], default_score := 0,
          optimized_score := 6 }
    ∧ Metric.comp .maximize (21 / 5) ((4 + 5) / 2) = .WORSE
    ∧ (21 : ℚ) / 5 ≥ 4 := by
  decide

/-- C6 (amended): in the per-parameter sweep the acceptance threshold is
the worst (minimum) candidate-baseline observation compared by a raw
numeric `>=` (the higher-is-better convention of this module), not the
midpoint `(worst + mean) / 2` and not via the metric's ordering: the
parameter at position `i` is dropped exactly when its variant score is
`>= min(baseline_scores)` and kept otherwise with raw contribution
`|baseline_avg − score|`; kept contributions are normalized to sum to 1
whenever any parameter is kept. -/
theorem accept_threshold_amended (oracle : ℕ → ℚ) (ev : ParameterEvaluator)
    (convert : ℚ → ℚ) (w avg : ℚ) (ps : List (String × PyVal)) (n : ℕ)
    (h : 0 < ev.min_baseline_size) :
    sweepVariants oracle w avg n ps
        = (((ps.enumFrom n).filter fun q => decide (oracle q.1 < w)).map Prod.snd,
           ((ps.enumFrom n).filter fun q => decide (oracle q.1 < w)).map
             (fun q => (q.2.1, |avg - oracle q.1|)),
           n + ps.length)
    ∧ ((ParameterEvaluator.evaluate convert oracle ev).contribution = []
      ∨ ((ParameterEvaluator.evaluate convert oracle ev).contribution.map Prod.snd).sum
          = 1) := by
  refine ⟨sweepVariants_spec oracle w avg ps n, ?_⟩
  unfold ParameterEvaluator.evaluate
  rw [fillBaselineScores_spec]
  simp only [Nat.zero_add]
  set bl := ev.baseline_values ++ oracleOutputs oracle 0
    (ev.min_baseline_size - ev.baseline_values.length) with hbl
  have hne : bl ≠ [] := by
    intro hempty
    rw [hbl] at hempty
    rcases List.append_eq_nil.mp hempty with ⟨hbv, hout⟩
    have hlen := congrArg List.length hout
    rw [length_oracleOutputs, hbv] at hlen
    simp at hlen
    omega
  have hwa : pyMin bl ≤ pyMean bl := pyMin_le_pyMean hne
  set sw := sweepVariants oracle (pyMin bl) (pyMean bl)
    (ev.min_baseline_size - ev.baseline_values.length) ev.params with hsw
  split_ifs with hrev
  · exact Or.inl rfl
  · by_cases hd : sw.2.1 = []
    · simp [hd]
    · right
      have hsum : 0 < (sw.2.1.map Prod.snd).sum := by
        apply sum_snd_pos hd
        intro kd hkd
        rw [hsw] at hkd
        exact sweepVariants_diff_pos oracle hwa ev.params
          (ev.min_baseline_size - ev.baseline_values.length) kd hkd
      show ((sw.2.1.map fun kd => (kd.1, kd.2 / (sw.2.1.map Prod.snd).sum)).map Prod.snd).sum = 1
      rw [sum_map_div]
      exact div_self (ne_of_gt hsum)

/-- C6 witness: the amended normalization law at the concrete evaluator
`ev6`. -/
theorem accept_threshold_amended_witness :
    0 < ev6.min_baseline_size
    ∧ ((ParameterEvaluator.evaluate id orac6 ev6).contribution = []
      ∨ ((ParameterEvaluator.evaluate id orac6 ev6).contribution.map Prod.snd).sum = 1) :=
  ⟨by decide, (accept_threshold_amended orac6 ev6 id 0 0 [] 0 (by decide)).2⟩

/-- C7 witness: the threshold equations applied to the concrete baseline
`[10, 12, 11, 13, 10]`. -/
theorem objective_knockout_threshold_witness :
    ([(10 : ℚ), 12, 11, 13, 10] ≠ [])
    ∧ Objective.pruneIfBelow ([(10 : ℚ), 12, 11, 13, 10].map fun x => -x)
        = -(pyMax [(10 : ℚ), 12, 11, 13, 10]
            + (1 / 10) * (pyMax [(10 : ℚ), 12, 11, 13, 10] - pyMin [(10 : ℚ), 12, 11, 13, 10])) := by
  refine ⟨by decide, ?_⟩
  exact (objective_knockout_threshold [10, 12, 11, 13, 10] (by decide)).1

end CpsatAutotune
